import Mathlib

/-!
Verification of the BOM (Bill of Materials) PDF extraction pipeline of the
yazaki repository.  The definitions below are a shallow embedding of the
Python sources, chiefly `src/YOC-YNCA/test.py` (functions `clean_cell`,
`strip_non_ascii`, `normalize_note`, `is_trivial_note`, `parse_index_int`,
`parse_bom_pdf`, `parse_pdf_metadata`, and the merging loop of
`write_combined_excel`), with `src/YOC-YNCA/convert.py` as the earlier
generation of the same pipeline.

Modelling conventions:
* a PDF table cell is an `Option String` (Python `None` or a string);
* machine reals appearing as BOM quantities are modelled as `Rat`
  (the code only ever parses finite decimal literals and adds them);
* `unicodedata.normalize("NFKC", s)` is the identity on the ASCII data the
  claims exercise and is modelled as the identity function;
* Python `str.splitlines` is modelled as splitting at the newline character,
  the only line separator occurring in the extracted cells;
* character classification (`isalpha`, `isdigit`, `isupper`, `lower`,
  `upper`) is modelled on the ASCII range, which is the range the pipeline
  feeds these functions after its own non-ASCII stripping;
* string primitives are re-implemented structurally over the character list
  of a string, so that every definition evaluates by kernel reduction.
-/

namespace Yazaki

/-- Whitespace trim of a character list (Python `str.strip()`). -/
def trimL (cs : List Char) : List Char :=
  ((cs.dropWhile Char.isWhitespace).reverse.dropWhile Char.isWhitespace).reverse

/-- Python `str.strip()`. -/
def pyStrip (s : String) : String := String.mk (trimL s.data)

/-- Split a character list at every occurrence of the separator character;
models Python `str.split(sep)` for a one-character separator. -/
def splitOnCharL (sep : Char) : List Char → List (List Char)
  | [] => [[]]
  | c :: rest =>
    if c == sep then [] :: splitOnCharL sep rest
    else
      match splitOnCharL sep rest with
      | [] => [[c]]
      | h :: t => (c :: h) :: t

/-- Python `clean_cell` (test.py line 55): `None` becomes `""`; newlines
become spaces; surrounding whitespace is stripped. -/
def cleanCell (c : Option String) : String :=
  match c with
  | none => ""
  | some s => String.mk (trimL (s.data.map (fun ch => if ch == '\n' then ' ' else ch)))

/-- Python `str(cell)` applied to a raw (possibly `None`) cell value:
`str(None)` is the literal string `"None"`. -/
def pyStr (c : Option String) : String :=
  match c with
  | none => "None"
  | some s => s

/-- Python `str.lower` on the ASCII range. -/
def pyLower (s : String) : String := String.mk (s.data.map Char.toLower)

/-- Python `str.upper` on the ASCII range. -/
def pyUpper (s : String) : String := String.mk (s.data.map Char.toUpper)

/-- Python `strip_non_ascii` (test.py line 58): remove every character
outside the 7-bit ASCII range. -/
def stripNonAscii (s : String) : String :=
  String.mk (s.data.filter (fun c => c.toNat ≤ 0x7F))

/-- Boolean prefix test on character lists. -/
def isPrefixL : List Char → List Char → Bool
  | [], _ => true
  | _ :: _, [] => false
  | p :: ps, c :: cs => (p == c) && isPrefixL ps cs

/-- Boolean infix (substring) test on character lists; models Python
`pat in s`. -/
def isInfixL (p : List Char) : List Char → Bool
  | [] => isPrefixL p []
  | c :: cs => isPrefixL p (c :: cs) || isInfixL p cs

/-- Python `pat in s` substring containment. -/
def strContainsSub (s pat : String) : Bool := isInfixL pat.data s.data

/-- Python `s.startswith(pat)`. -/
def strStartsWith (s pat : String) : Bool := isPrefixL pat.data s.data

/-- Split a character list into the maximal pieces not containing a
character satisfying `p`; models Python `str.split()` before dropping empty
pieces. -/
def splitByWsL : List Char → List (List Char)
  | [] => [[]]
  | c :: rest =>
    if c.isWhitespace then [] :: splitByWsL rest
    else
      match splitByWsL rest with
      | [] => [[c]]
      | h :: t => (c :: h) :: t

/-- Python `str.split()` with no argument: split on whitespace, dropping
empty pieces. -/
def pySplitWs (s : String) : List String :=
  ((splitByWsL s.data).map String.mk).filter (fun w => w ≠ "")

/-- Decimal value of a list of digit characters. -/
def natOfDigits (ds : List Char) : Nat :=
  ds.foldl (fun n c => n * 10 + (c.toNat - ('0').toNat)) 0

/-- Python `int(s)` on the sign-and-digits strings this pipeline feeds it:
an optional sign followed by at least one decimal digit. -/
def pyParseInt (s : String) : Option Int :=
  let core : List Char → Option Nat := fun ds =>
    if ds ≠ [] ∧ ds.all Char.isDigit then some (natOfDigits ds) else none
  match s.data with
  | '+' :: ds => (core ds).map Int.ofNat
  | '-' :: ds => (core ds).map (fun n => -(n : Int))
  | ds => (core ds).map Int.ofNat

/-- Split a character list at the first character satisfying `p`; return the
part before it and, when found, the part after it. -/
def splitFirst (p : Char → Bool) : List Char → List Char × Option (List Char)
  | [] => ([], none)
  | c :: cs =>
    if p c then ([], some cs)
    else
      let r := splitFirst p cs
      (c :: r.1, r.2)

/-- Python `float(s)` on finite decimal literals: optional sign, an integer
part and/or a fractional part separated by a dot, and an optional decimal
exponent.  Returns the exact rational value; strings outside this grammar
(such as `"N/A"`) fail. -/
def pyParseFloat (s : String) : Option Rat :=
  let signed : List Char → Rat × List Char := fun cs =>
    match cs with
    | '+' :: r => (1, r)
    | '-' :: r => (-1, r)
    | r => (1, r)
  let (sgn, cs) := signed s.data
  let (mantPart, expPart) := splitFirst (fun c => c == 'e' || c == 'E') cs
  let mant : Option (Nat × Nat) :=
    match splitFirst (fun c => c == '.') mantPart with
    | (ip, none) =>
      if ip ≠ [] ∧ ip.all Char.isDigit then some (natOfDigits ip, 0) else none
    | (ip, some fp) =>
      if (ip ≠ [] ∨ fp ≠ []) ∧ ip.all Char.isDigit ∧ fp.all Char.isDigit then
        some (natOfDigits (ip ++ fp), fp.length)
      else none
  let expv : Option Int :=
    match expPart with
    | none => some 0
    | some ec =>
      match ec with
      | '+' :: ds => if ds ≠ [] ∧ ds.all Char.isDigit then some (Int.ofNat (natOfDigits ds)) else none
      | '-' :: ds => if ds ≠ [] ∧ ds.all Char.isDigit then some (-(natOfDigits ds : Int)) else none
      | ds => if ds ≠ [] ∧ ds.all Char.isDigit then some (Int.ofNat (natOfDigits ds)) else none
  match mant, expv with
  | some (m, fl), some e =>
    let scaled : Rat :=
      if 0 ≤ e - (fl : Int) then (m : Rat) * (10 : Rat) ^ (e - (fl : Int)).toNat
      else (m : Rat) / (10 : Rat) ^ ((fl : Int) - e).toNat
    some (sgn * scaled)
  | _, _ => none

/-- Quantity parsing of test.py lines 250-257: the cleaned quantity cell is
parsed as an integer if non-empty, else as a float, else the quantity is
absent (`None`).  An empty cell is absent without attempting a parse. -/
def parseQuantity (qt : String) : Option Rat :=
  if qt = "" then none
  else
    match pyParseInt qt with
    | some n => some (n : Rat)
    | none => pyParseFloat qt

/-- Python `parse_index_int` (test.py line 123): the leading run of digits
of the stripped string, as an integer; `none` when the string does not start
with a digit. -/
def parseIndexInt (s : String) : Option Nat :=
  let ds := (trimL s.data).takeWhile Char.isDigit
  if ds = [] then none else some (natOfDigits ds)

/-- A non-empty all-digit character list. -/
def isDigitRun (cs : List Char) : Bool := !cs.isEmpty && cs.all Char.isDigit

/-- The item-index admission regex of test.py line 178 / convert.py line 89:
full match of one or two dot-separated digit groups. -/
def matchesItemIdx (s : String) : Bool :=
  match splitOnCharL '.' s.data with
  | [a] => isDigitRun a
  | [a, b] => isDigitRun a && isDigitRun b
  | _ => false

/-- Maximal runs of decimal digits of a character list (Python
`re.findall(r"\d+", s)`); `cur` is the reversed run currently being read. -/
def digitRunsAux : List Char → List Char → List String
  | [], cur => if cur = [] then [] else [String.mk cur.reverse]
  | c :: cs, cur =>
    if c.isDigit then digitRunsAux cs (c :: cur)
    else if cur = [] then digitRunsAux cs []
    else String.mk cur.reverse :: digitRunsAux cs []

/-- All maximal digit runs of a string, in order. -/
def digitRuns (s : String) : List String := digitRunsAux s.data []

/-- Revision extraction of test.py lines 247-248: the last digit run of the
change-column text, or `"0"` when the text has no digit. -/
def revisionOf (rawChg : String) : String := (digitRuns rawChg).getLast?.getD "0"

/-- `unicodedata.normalize("NFKC", s)`: NFKC normalization, which is the
identity on the ASCII strings the claims exercise; modelled as the
identity. -/
def normalizeText (s : String) : String := s

/-- Case-insensitive prefix stripping: removes `pat` (compared lowercased)
from the front of `cs`, returning the rest, or `none` when `cs` does not
start with `pat`. -/
def stripPrefixCI : List Char → List Char → Option (List Char)
  | [], cs => some cs
  | _ :: _, [] => none
  | p :: ps, c :: cs => if p.toLower == c.toLower then stripPrefixCI ps cs else none

/-- The trivial-note regex of test.py lines 40-43,
`^\s*(欠図\s*)?(in\s+preparation)\s*$` with `re.IGNORECASE`: optional
whitespace, an optional 欠図 marker followed by optional whitespace, the
words `in` and `preparation` separated by whitespace, and trailing
whitespace. -/
def trivialNoteMatch (s : String) : Bool :=
  let cs := s.data.dropWhile Char.isWhitespace
  let cs :=
    match stripPrefixCI ['欠', '図'] cs with
    | some r => r.dropWhile Char.isWhitespace
    | none => cs
  match stripPrefixCI ['i', 'n'] cs with
  | none => false
  | some r =>
    match r with
    | c :: rest =>
      if c.isWhitespace then
        match stripPrefixCI "preparation".data (rest.dropWhile Char.isWhitespace) with
        | some tail => tail.all Char.isWhitespace
        | none => false
      else false
    | [] => false

/-- Python `is_trivial_note` (test.py line 64): empty notes are not
trivial; otherwise the NFKC-normalized, stripped note is trivial when it
matches the trivial-note regex or equals the bare 欠図 marker. -/
def isTrivialNote (note : String) : Bool :=
  if note = "" then false
  else
    let n := pyStrip (normalizeText note)
    trivialNoteMatch n || n == "欠図"

/-- Collapse every whitespace run to one space (Python
`re.sub(r"\s+", " ", s)`); `prevWs` records whether the previous character
was part of a whitespace run. -/
def collapseWsAux : List Char → Bool → List Char
  | [], _ => []
  | c :: rest, prevWs =>
    if c.isWhitespace then
      if prevWs then collapseWsAux rest true else ' ' :: collapseWsAux rest true
    else c :: collapseWsAux rest false

/-- Strip the characters of `bad` from both ends of a character list
(Python `str.strip(" ;:-")`). -/
def stripEnds (bad : List Char) (cs : List Char) : List Char :=
  ((cs.dropWhile (fun c => bad.contains c)).reverse.dropWhile (fun c => bad.contains c)).reverse

/-- Python `normalize_note` (test.py line 74): empty or trivial notes
canonicalize to `""`; otherwise normalize, strip, collapse whitespace,
strip the punctuation set, and lowercase. -/
def normalizeNote (s : String) : String :=
  if s = "" || isTrivialNote s then ""
  else
    let t := trimL (normalizeText s).data
    let t := collapseWsAux t false
    let t := stripEnds [' ', ';', ':', '-'] t
    pyLower (String.mk t)

/-- The `JAPANESE_RE` character class of test.py line 36:
`[　-ヿ一-龯]`. -/
def hasJapanese (s : String) : Bool :=
  s.data.any (fun c =>
    (0x3000 ≤ c.toNat && c.toNat ≤ 0x30FF) || (0x4E00 ≤ c.toNat && c.toNat ≤ 0x9FAF))

/-- `CUT_THRESHOLD` (test.py line 37): the shared minimum-English-length /
acronym-length threshold. -/
def CUT_THRESHOLD : Nat := 3

/-- The English-content selection of test.py lines 206-214, parameterized
by the threshold `cut`: start from every line after the first (or the first
alone when it is the only line), then drop the first remaining candidate
when it contains a Japanese character or its letters-only content is
shorter than `cut`. -/
def filterContent (cut : Nat) (lines : List String) : List String :=
  let content := if lines.length > 1 then lines.drop 1 else lines.take 1
  match content with
  | [] => []
  | cand :: rest =>
    let eng := cand.data.filter Char.isAlpha
    if hasJapanese cand || eng.length < cut then rest else content

/-- One step of the line-flattening loop of test.py lines 220-229: join the
next line directly onto `flat` only when `flat` ends in a letter, the next
line starts with a letter, and `flat` does not end in a space; otherwise
join with a single space. -/
def flattenStep (flat : String) (ln0 : String) : String :=
  let ln := pyStrip ln0
  if flat ≠ "" && (flat.data.getLast?.getD ' ').isAlpha && ln ≠ "" &&
      (ln.data.head?.getD ' ').isAlpha && !((flat.data.getLast?.getD ' ') == ' ') then
    flat ++ ln
  else flat ++ " " ++ ln

/-- Flatten the filtered content lines into one string (test.py lines
219-229): the first line seeds the result, later lines are appended by
`flattenStep`; no lines give the empty string. -/
def flattenLines : List String → String
  | [] => ""
  | l :: ls => ls.foldl flattenStep (pyStrip l)

/-- Python `str.isupper` on the ASCII range: at least one letter and no
lowercase letter. -/
def pyIsUpper (w : String) : Bool :=
  w.data.any Char.isAlpha && w.data.all (fun c => !c.isLower)

/-- Python `w.lower().capitalize()`: lowercase everything, then uppercase
the first character. -/
def pyLowerCapitalize (w : String) : String :=
  match w.data.map Char.toLower with
  | [] => ""
  | c :: cs => String.mk (c.toUpper :: cs)

/-- The word formatter `fmt` of test.py lines 233-238, parameterized by the
acronym threshold `cut`: words containing a digit are uppercased; words
already all-uppercase and of length at most `cut` are kept; all other words
are lowercased then capitalized. -/
def fmtWord (cut : Nat) (w : String) : String :=
  if w.data.any Char.isDigit then pyUpper w
  else if pyIsUpper w && w.length ≤ cut then w
  else pyLowerCapitalize w

/-- Join a list of strings with single spaces (Python `" ".join(ws)`). -/
def joinSpace : List String → String
  | [] => ""
  | w :: ws => ws.foldl (fun acc x => acc ++ " " ++ x) w

/-- Part-name reconstruction of test.py lines 206-241, parameterized by the
threshold: filter the cell's non-empty lines, record whether 2 or more
English lines remain (the multiline flag), flatten, strip non-ASCII
characters, split into words, format each word, join and strip.  Returns
the part name and the `flag_multiline_english` value. -/
def partNameOf (cut : Nat) (lines : List String) : String × Bool :=
  let content := filterContent cut lines
  let multiline := content.length > 1
  let flat := flattenLines content
  let words := pySplitWs (stripNonAscii flat)
  let pname := pyStrip (joinSpace (words.map (fmtWord cut)))
  (pname, multiline)

/-- A raw PDF table row: nullable text cells. -/
abbrev Row := List (Option String)

/-- A raw PDF table: the ordered rows of the first extracted table of a
page. -/
abbrev Table := List Row

/-- The header-row condition of test.py lines 147-149: some cell's cleaned
lowercased text starts with `"level"` and some cell's starts with
`"part number"`. -/
def headerCond (row : Row) : Bool :=
  row.any (fun c => strStartsWith (pyLower (cleanCell c)) "level") &&
  row.any (fun c => strStartsWith (pyLower (cleanCell c)) "part number")

/-- The header-row condition as the specification words it: some cell's
text satisfies the level condition and some cell's text contains
`"part number"` (rather than starting with it).  Kept separate from
`headerCond` for comparison. -/
def specHeaderCond (row : Row) : Bool :=
  row.any (fun c => strStartsWith (pyLower (cleanCell c)) "level") &&
  row.any (fun c => strContainsSub (pyLower (cleanCell c)) "part number")

/-- Index (from `start`) of the first row satisfying `p`; models the
generator expression of test.py lines 145-152. -/
def firstRowIdx (p : Row → Bool) : Table → Nat → Option Nat
  | [], _ => none
  | r :: rs, start => if p r then some start else firstRowIdx p rs (start + 1)

/-- Header-row selection of test.py lines 145-152: the first row among the
table's first 6 rows satisfying `headerCond`, else the fallback index 2. -/
def hdrIdx (tbl : Table) : Nat := (firstRowIdx headerCond (tbl.take 6) 0).getD 2

/-- Header-row selection as the specification words it. -/
def specHdrIdx (tbl : Table) : Nat := (firstRowIdx specHeaderCond (tbl.take 6) 0).getD 2

/-- The data rows of a table: the rows strictly after the chosen header row
(test.py line 176). -/
def dataRows (tbl : Table) : Table := tbl.drop (hdrIdx tbl + 1)

/-- The column-role map of test.py lines 156-173, after the fallback
defaults are applied. -/
structure ColMap where
  part_number : Nat
  part_name : Nat
  quantity : Option Nat
  change : Option Nat
  note : Option Nat

/-- The roles while the header scan is still running, each possibly not yet
assigned. -/
structure ColMapAcc where
  part_number : Option Nat := none
  part_name : Option Nat := none
  quantity : Option Nat := none
  change : Option Nat := none
  note : Option Nat := none

/-- Column mapping of test.py lines 156-173: scan the header row's cells in
order, each cell claiming at most one role (an `elif` chain, later cells
overwriting earlier ones for the same role), then apply the fixed fallback
defaults. -/
def buildCmap (hdr : Row) : ColMap :=
  let step : ColMapAcc → Nat × Option String → ColMapAcc := fun m p =>
    let txt := pyLower (cleanCell p.2)
    if strContainsSub txt "part number" then { m with part_number := some p.1 }
    else if strContainsSub txt "part name" then { m with part_name := some p.1 }
    else if strContainsSub txt "qty" then { m with quantity := some p.1 }
    else if strContainsSub txt "change" || strStartsWith txt "rev" then { m with change := some p.1 }
    else if strContainsSub txt "note" || strContainsSub txt "備" then { m with note := some p.1 }
    else m
  let idx : List (Nat × Option String) := (List.range hdr.length).zip hdr
  let m := idx.foldl step {}
  { part_number := m.part_number.getD 6, part_name := m.part_name.getD 19,
    quantity := m.quantity, change := m.change, note := m.note }

/-- The normalized unit of record appended by test.py lines 261-273. -/
structure BomEntry where
  level : Nat
  part_name : String
  display_name : String
  note : String
  note_norm : String
  part_number : String
  drawing_no : String
  change : String
  quantity : Option Rat
  flag_multiline_en : Bool
  flag_note_used : Bool
deriving Repr, DecidableEq

/-- Hierarchy level of test.py lines 187-190: the first index among columns
1..5 that is in range and has a non-empty cleaned cell, else 1. -/
def levelOf (row : Row) : Nat :=
  (((List.range' 1 5).find?
    (fun ci => decide (ci < row.length) && (cleanCell (row.getD ci none) ≠ ""))).getD 1)

/-- The cleaned cell at an optional mapped column, `""` when the role is
unmapped or out of range (the repeated
`clean_cell(row[i]) if i is not None and i < len(row) else ""` pattern). -/
def mappedCell (row : Row) (ci : Option Nat) : String :=
  match ci with
  | some i => if i < row.length then cleanCell (row.getD i none) else ""
  | none => ""

/-- The cleaned item-index cell: the row's first cell (test.py line
177). -/
def itemIdxText (row : Row) : String := cleanCell (row.getD 0 none)

/-- The body of the row loop of `parse_bom_pdf` (test.py lines 176-273),
for one data row: admission of the item index, the deletion-set check, the
outline-drawing skip, note handling, part-name reconstruction, and the
assembled entry; `none` when the row is skipped. -/
def processRow (deleted : List Nat) (cmap : ColMap) (row : Row) : Option BomEntry :=
  let idx := itemIdxText row
  if !matchesItemIdx idx then none
  else
    let idxInt := parseIndexInt idx
    if (match idxInt with | some n => deleted.contains n | none => false) then none
    else
      let level := levelOf row
      let rawS := if cmap.part_name < row.length then pyStr (row.getD cmap.part_name none) else ""
      let rawLinesAll := (((splitOnCharL '\n' rawS.data).map (fun l => String.mk (trimL l))).filter (fun l => l ≠ ""))
      let rawText := pyLower (joinSpace rawLinesAll)
      if level == 1 && strContainsSub rawText "outline drawing" then none
      else
        let note0 := mappedCell row cmap.note
        let note := if isTrivialNote note0 then "" else note0
        let nameFlag := partNameOf CUT_THRESHOLD rawLinesAll
        if nameFlag.1 = "" then none
        else
          let pn := if cmap.part_number < row.length then normalizeText (cleanCell (row.getD cmap.part_number none)) else ""
          some {
            level := level
            part_name := nameFlag.1
            display_name := if note ≠ "" then note else nameFlag.1
            note := note
            note_norm := normalizeNote note
            part_number := pn
            drawing_no := pn
            change := revisionOf (mappedCell row cmap.change)
            quantity := parseQuantity (mappedCell row cmap.quantity)
            flag_multiline_en := nameFlag.2
            flag_note_used := note ≠ "" }

/-- All entries produced from a list of data rows. -/
def processRows (deleted : List Nat) (cmap : ColMap) (rows : Table) : List BomEntry :=
  rows.filterMap (processRow deleted cmap)

/-- Per-page extraction of `parse_bom_pdf`: locate the header row, build
the column map from it, and normalize the rows strictly after it, given the
page's deletion set. -/
def processPage (deleted : List Nat) (tbl : Table) : List BomEntry :=
  processRows deleted (buildCmap (tbl.getD (hdrIdx tbl) [])) (dataRows tbl)

/-- Whether a row is flagged by the page's deletion set: its cleaned first
cell's leading integer is a member (test.py lines 182-184). -/
def isDeletedRow (deleted : List Nat) (row : Row) : Bool :=
  match parseIndexInt (itemIdxText row) with
  | some n => deleted.contains n
  | none => false

/-- The anchor condition of `parse_pdf_metadata` (test.py line 284): the
uppercased line starts with `"PRODUCT NUMBER"` and contains
`"CUSTOMER"`. -/
def anchorCond (ln : String) : Bool :=
  let up := pyUpper ln
  strStartsWith up "PRODUCT NUMBER" && strContainsSub up "CUSTOMER"

/-- The scan loop of `parse_pdf_metadata` (test.py lines 282-290): walk the
non-empty lines carrying the previous line; at the first anchor line,
return the second and first whitespace-separated token of the preceding
line when that line exists and has at least two tokens, else stop with two
empty strings. -/
def metaLoop (prev : Option String) : List String → String × String
  | [] => ("", "")
  | ln :: rest =>
    if anchorCond ln then
      match prev with
      | none => ("", "")
      | some pl =>
        let parts := pySplitWs pl
        if 2 ≤ parts.length then
          (stripNonAscii (normalizeText (parts.getD 1 "")),
           stripNonAscii (normalizeText (parts.getD 0 "")))
        else ("", "")
    else metaLoop (some ln) rest

/-- `parse_pdf_metadata` on the document's stripped non-empty lines. -/
def parseMetadataLines (lines : List String) : String × String := metaLoop none lines

/-- The line preceding position `i` during the metadata scan: the carried
`prev` value at position 0, else line `i - 1`. -/
def prevAt (prev : Option String) (lines : List String) (i : Nat) : Option String :=
  if i = 0 then prev else some (lines.getD (i - 1) "")

/-- `parse_pdf_metadata` from the concatenated page text: split into lines,
strip them, drop the empty ones, and scan. -/
def parseMetadataText (fullText : String) : String × String :=
  parseMetadataLines
    (((splitOnCharL '\n' fullText.data).map (fun l => String.mk (trimL l))).filter (fun l => l ≠ ""))

/-- A merged-part record of `write_combined_excel` (test.py line 311):
the seeding entry's fields together with the per-variant quantity
vector. -/
structure PartRec where
  entry : BomEntry
  qtys : List (Option Rat)
deriving Repr, DecidableEq

/-- `make_key` of test.py lines 297-301: `level==1` entries key on the part
number and normalized note; deeper entries key on the part number, variant
index, and global sequence number. -/
def makeKey (r : BomEntry) (vi seq : Nat) : String :=
  if r.level = 1 then r.part_number ++ "@@n=" ++ r.note_norm
  else r.part_number ++ "@@v" ++ toString vi ++ "@@i" ++ toString seq

/-- First-match association-list lookup; models Python `key in parts` /
`parts[key]` (dict keys are unique, so first match is the match). -/
def lookupA (ps : List (String × PartRec)) (k : String) : Option PartRec :=
  match ps with
  | [] => none
  | (k', p) :: rest => if k' == k then some p else lookupA rest k

/-- Update the record of the first matching key in place. -/
def updateA (ps : List (String × PartRec)) (k : String) (f : PartRec → PartRec) :
    List (String × PartRec) :=
  match ps with
  | [] => []
  | (k', p) :: rest => if k' == k then (k', f p) :: rest else (k', p) :: updateA rest k f

/-- The running state of the parts-building loop of test.py lines 304-320:
the keyed parts, the first-seen key order, and the global sequence
counter. -/
structure BuildState where
  parts : List (String × PartRec)
  initial_order : List String
  seq : Nat
deriving Repr

/-- One iteration of the inner loop of test.py lines 306-320 for the entry
`r` of variant `vi` among `n` variants: compute the key; seed a fresh
record with an all-absent quantity vector when the key is new; when the
entry's quantity is present, add it onto the variant's slot, storing an
exact-zero total as absent; record the key in first-seen order. -/
def applyEntry (n vi : Nat) (st : BuildState) (r : BomEntry) : BuildState :=
  let key := makeKey r vi st.seq
  let parts1 :=
    if (lookupA st.parts key).isSome then st.parts
    else st.parts ++ [(key, { entry := r, qtys := List.replicate n none })]
  let parts2 :=
    match r.quantity with
    | none => parts1
    | some q =>
      updateA parts1 key (fun p =>
        let existing := p.qtys.getD vi none
        let newTotal := existing.getD 0 + q
        { p with qtys := p.qtys.set vi (if newTotal = 0 then none else some newTotal) })
  let order1 :=
    if st.initial_order.contains key then st.initial_order else st.initial_order ++ [key]
  { parts := parts2, initial_order := order1, seq := st.seq + 1 }

/-- The outer loop over the variants (Python `enumerate(sheets)`), carrying
the variant index. -/
def buildPartsAux (n : Nat) : Nat → BuildState → List (List BomEntry) → BuildState
  | _, st, [] => st
  | vi, st, ents :: rest => buildPartsAux n (vi + 1) (ents.foldl (applyEntry n vi) st) rest

/-- The parts-building phase of `write_combined_excel` (test.py lines
293-320) over the variants' entry lists, in caller order. -/
def buildParts (sheets : List (List BomEntry)) : BuildState :=
  buildPartsAux sheets.length 0 { parts := [], initial_order := [], seq := 0 } sheets

/-- Sum of the present (non-absent) quantities of a list of entries. -/
def sumQ (es : List BomEntry) : Rat := (es.map (fun x => x.quantity.getD 0)).sum

/-- A minimal top-level entry used as concrete test data: part number `pn`,
note text `nn` (already canonical), quantity `q`. -/
def mkEntry (pn nn : String) (q : Option Rat) : BomEntry :=
  { level := 1, part_name := "Part", display_name := "Part", note := nn, note_norm := nn,
    part_number := pn, drawing_no := pn, change := "0", quantity := q,
    flag_multiline_en := false, flag_note_used := false }

/-! ### Helper lemmas -/

theorem getD_take_of_lt {α : Type} (d : α) :
    ∀ (l : List α) (n i : Nat), i < n → (l.take n).getD i d = l.getD i d := by
  intro l
  induction l with
  | nil => intro n i _; simp
  | cons a as ih =>
    intro n i hin
    cases n with
    | zero => omega
    | succ n =>
      cases i with
      | zero => simp
      | succ i => simpa using ih n i (by omega)

theorem firstRowIdx_eq_some (p : Row → Bool) :
    ∀ (rows : Table) (start i : Nat), i < rows.length →
      p (rows.getD i []) = true → (∀ j, j < i → p (rows.getD j []) = false) →
      firstRowIdx p rows start = some (start + i) := by
  intro rows
  induction rows with
  | nil => intro start i hi; simp at hi
  | cons r rs ih =>
    intro start i hi hp hfirst
    cases i with
    | zero =>
      have hp' : p r = true := by simpa using hp
      simp [firstRowIdx, hp']
    | succ i =>
      have h0 : p r = false := by simpa using hfirst 0 (by omega)
      have hi' : i < rs.length := by
        simp only [List.length_cons] at hi
        omega
      have hp' : p (rs.getD i []) = true := by simpa using hp
      have hrec := ih (start + 1) i hi' hp'
        (fun j hj => by simpa using hfirst (j + 1) (by omega))
      simp only [firstRowIdx, h0, Bool.false_eq_true, if_false]
      rw [hrec]
      congr 1
      omega

theorem firstRowIdx_eq_none (p : Row → Bool) :
    ∀ (rows : Table) (start : Nat),
      (∀ j, j < rows.length → p (rows.getD j []) = false) →
      firstRowIdx p rows start = none := by
  intro rows
  induction rows with
  | nil => intro start _; rfl
  | cons r rs ih =>
    intro start hall
    have h0 : p r = false := by simpa using hall 0 (by simp)
    simp only [firstRowIdx, h0]
    exact ih (start + 1) (fun j hj => by simpa using hall (j + 1) (by simpa using hj))

/-! ### Claim theorems -/

/-- Claim C5: the mapped quantity cell's text is parsed first as an
integer, else as a float, else recorded as absent: text `"2"` yields
quantity 2, text `""` yields absent, and text `"N/A"` yields absent; the
parse is total (never an error). -/
theorem quantity_parse_examples :
    parseQuantity "2" = some 2 ∧ parseQuantity "" = none ∧ parseQuantity "N/A" = none := by
  refine ⟨by decide, by decide, by decide⟩

/-- Claim C7: the revision equals the last run of decimal digits of the
change-column text — `"Rev 3 (was 2)"` yields `"2"` — and is `"0"` when
the text contains no digit. -/
theorem revision_is_last_digit_run :
    revisionOf "Rev 3 (was 2)" = "2" ∧
    ∀ s : String, (∀ c ∈ s.data, c.isDigit = false) → revisionOf s = "0" := by
  constructor
  · decide
  · intro s hnd
    have aux : ∀ cs : List Char, (∀ c ∈ cs, c.isDigit = false) → digitRunsAux cs [] = [] := by
      intro cs
      induction cs with
      | nil => intro _; rfl
      | cons c rest ih =>
        intro h
        have hc : c.isDigit = false := h c (by simp)
        simp only [digitRunsAux, hc]
        exact ih (fun x hx => h x (by simp [hx]))
    simp [revisionOf, digitRuns, aux s.data hnd]

theorem revision_is_last_digit_run_witness : revisionOf "Rev." = "0" :=
  revision_is_last_digit_run.2 "Rev." (by decide)

/-- Claim C4 counterexample: for the part-name cell lines
`["部品名", "AS", "SY BRACKET"]` under threshold 4, the reconstructed name
is not `"Sy Bracket"` (the formatter keeps the all-uppercase word `"SY"`,
which is within the acronym threshold, as-is). -/
theorem spec_example_part_name_refuted :
    ¬ ((partNameOf 4 ["部品名", "AS", "SY BRACKET"]).1 = "Sy Bracket" ∧
       (partNameOf 4 ["部品名", "AS", "SY BRACKET"]).2 = false) := by
  decide

/-- Claim C4 as amended: for the cell lines `["部品名", "AS", "SY BRACKET"]`,
line 0 is dropped and line 1 (`"AS"`, letters-only length 2 below the
threshold) is dropped, leaving `["SY BRACKET"]`; the resulting part name is
`"SY Bracket"` with the multiline-English flag false — both under the
claim's threshold 4 and under the repository's `CUT_THRESHOLD` of 3. -/
theorem part_name_example_gives_sy_bracket :
    filterContent 4 ["部品名", "AS", "SY BRACKET"] = ["SY BRACKET"] ∧
    partNameOf 4 ["部品名", "AS", "SY BRACKET"] = ("SY Bracket", false) ∧
    filterContent CUT_THRESHOLD ["部品名", "AS", "SY BRACKET"] = ["SY BRACKET"] ∧
    partNameOf CUT_THRESHOLD ["部品名", "AS", "SY BRACKET"] = ("SY Bracket", false) := by
  refine ⟨by decide, by decide, by decide, by decide⟩

/-- Claim C8 counterexample: on a table whose only row has a cell starting
with `"level"` and a cell merely containing (not starting with)
`"part number"`, the code's header choice is the fallback index 2, not the
index 0 predicted by the claim's contains-condition. -/
theorem header_contains_condition_refuted :
    hdrIdx [[some "my part number", some "level x"]] = 2 ∧
    specHdrIdx [[some "my part number", some "level x"]] = 0 ∧
    hdrIdx [[some "my part number", some "level x"]] ≠
      specHdrIdx [[some "my part number", some "level x"]] := by
  refine ⟨by decide, by decide, by decide⟩

/-- Claim C8 as amended: the header row chosen for a page's first table is
the first row among the table's first 6 rows having both a cell whose
cleaned text (case-insensitive) starts with `"level"` and a cell starting
with `"part number"`; when no such row exists within the first 6 rows the
fixed fallback index 2 is used; data rows are exactly the rows strictly
after the chosen header row. -/
theorem header_selection_starts_with :
    (∀ (tbl : Table) (i : Nat), i < 6 → i < tbl.length →
        headerCond (tbl.getD i []) = true →
        (∀ j, j < i → headerCond (tbl.getD j []) = false) →
        hdrIdx tbl = i ∧ dataRows tbl = tbl.drop (i + 1)) ∧
    (∀ tbl : Table, (∀ j, j < 6 → j < tbl.length → headerCond (tbl.getD j []) = false) →
        hdrIdx tbl = 2 ∧ dataRows tbl = tbl.drop 3) := by
  constructor
  · intro tbl i hi6 hilen hc hfirst
    have hlen : i < (tbl.take 6).length := by
      simpa [List.length_take] using (by omega : i < min 6 tbl.length)
    have hfq : firstRowIdx headerCond (tbl.take 6) 0 = some (0 + i) := by
      apply firstRowIdx_eq_some headerCond (tbl.take 6) 0 i hlen
      · rw [getD_take_of_lt _ tbl 6 i hi6]; exact hc
      · intro j hj
        rw [getD_take_of_lt _ tbl 6 j (by omega)]
        exact hfirst j hj
    have hh : hdrIdx tbl = i := by simp [hdrIdx, hfq]
    exact ⟨hh, by simp [dataRows, hh]⟩
  · intro tbl hall
    have hfq : firstRowIdx headerCond (tbl.take 6) 0 = none := by
      apply firstRowIdx_eq_none
      intro j hj
      have hj6 : j < 6 := by
        have := hj
        simp [List.length_take] at this
        omega
      have hjlen : j < tbl.length := by
        have := hj
        simp [List.length_take] at this
        omega
      rw [getD_take_of_lt _ tbl 6 j hj6]
      exact hall j hj6 hjlen
    have hh : hdrIdx tbl = 2 := by simp [hdrIdx, hfq]
    exact ⟨hh, by simp [dataRows, hh]⟩

theorem header_selection_starts_with_witness :
    hdrIdx [[some "Level", some "Part Number"]] = 0 ∧
    dataRows [[some "Level", some "Part Number"]] = [] := by
  have h := header_selection_starts_with.1 [[some "Level", some "Part Number"]] 0
    (by omega) (by decide) (by decide) (fun j hj => absurd hj (by omega))
  exact ⟨h.1, by simpa using h.2⟩

theorem processRow_of_deleted (deleted : List Nat) (cmap : ColMap) (row : Row) (n : Nat)
    (h1 : parseIndexInt (itemIdxText row) = some n) (h2 : n ∈ deleted) :
    processRow deleted cmap row = none := by
  by_cases hm : matchesItemIdx (itemIdxText row)
  · simp [processRow, hm, h1]
    intro hcon
    exact absurd h2 hcon
  · simp [processRow, hm]

/-- Claim C1: a data row whose item-index cell's leading integer is a
member of the page's deletion set produces no output entry, regardless of
the row's other cells; consequently removing every flagged row from the
input leaves the emitted entry list unchanged. -/
theorem deleted_rows_produce_no_output :
    (∀ (deleted : List Nat) (cmap : ColMap) (row : Row) (n : Nat),
        parseIndexInt (itemIdxText row) = some n → n ∈ deleted →
        processRow deleted cmap row = none) ∧
    (∀ (deleted : List Nat) (cmap : ColMap) (rows : Table),
        processRows deleted cmap rows =
          processRows deleted cmap (rows.filter (fun r => !isDeletedRow deleted r))) := by
  refine ⟨processRow_of_deleted, ?_⟩
  intro deleted cmap rows
  induction rows with
  | nil => rfl
  | cons r rs ih =>
    simp only [processRows] at ih
    by_cases hd : isDeletedRow deleted r
    · have hnone : processRow deleted cmap r = none := by
        rcases hpi : parseIndexInt (itemIdxText r) with _ | n
        · simp [isDeletedRow, hpi] at hd
        · have hmem : n ∈ deleted := by
            have hh := hd
            simp only [isDeletedRow, hpi] at hh
            simpa using hh
          exact processRow_of_deleted deleted cmap r n hpi hmem
      simp [processRows, List.filterMap_cons, List.filter_cons, hnone, hd, ih]
    · simp [processRows, List.filterMap_cons, List.filter_cons, hd, ih]

theorem deleted_rows_produce_no_output_witness :
    processRow [68] ⟨6, 19, none, none, none⟩ [some "68.1", some "LAMP ASSY"] = none :=
  deleted_rows_produce_no_output.1 [68] ⟨6, 19, none, none, none⟩
    [some "68.1", some "LAMP ASSY"] 68 (by decide) (by decide)

theorem processRow_of_bad_idx (deleted : List Nat) (cmap : ColMap) (row : Row)
    (h : matchesItemIdx (itemIdxText row) = false) :
    processRow deleted cmap row = none := by
  simp [processRow, h]

/-- Claim C6: every emitted entry originates from a row whose cleaned first
cell is non-empty and fully matches the dotted-decimal pattern of one or
two digit groups; rows with an empty or non-matching item-index cell
produce no entry. -/
theorem entries_require_dotted_index :
    (∀ (deleted : List Nat) (cmap : ColMap) (row : Row),
        matchesItemIdx (itemIdxText row) = false →
        processRow deleted cmap row = none) ∧
    (∀ (deleted : List Nat) (cmap : ColMap) (rows : Table) (e : BomEntry),
        e ∈ processRows deleted cmap rows →
        ∃ row, row ∈ rows ∧ processRow deleted cmap row = some e ∧
          matchesItemIdx (itemIdxText row) = true ∧ itemIdxText row ≠ "") := by
  refine ⟨processRow_of_bad_idx, ?_⟩
  intro deleted cmap rows e he
  obtain ⟨row, hrow, hpr⟩ := List.mem_filterMap.mp he
  have hm : matchesItemIdx (itemIdxText row) = true := by
    by_contra hfalse
    have hf : matchesItemIdx (itemIdxText row) = false := by simpa using hfalse
    rw [processRow_of_bad_idx deleted cmap row hf] at hpr
    exact Option.noConfusion hpr
  refine ⟨row, hrow, hpr, hm, ?_⟩
  intro hempty
  rw [hempty] at hm
  exact absurd hm (by decide)

theorem entries_require_dotted_index_witness :
    processRow [] ⟨6, 19, none, none, none⟩ [some "Part Number", some "x"] = none :=
  entries_require_dotted_index.1 [] ⟨6, 19, none, none, none⟩
    [some "Part Number", some "x"] (by decide)

theorem metaLoop_first_anchor_bad :
    ∀ (lines : List String) (prev : Option String) (i : Nat),
      i < lines.length → anchorCond (lines.getD i "") = true →
      (∀ j, j < i → anchorCond (lines.getD j "") = false) →
      (∀ pl, prevAt prev lines i = some pl → (pySplitWs pl).length < 2) →
      metaLoop prev lines = ("", "") := by
  intro lines
  induction lines with
  | nil => intro prev i hi; simp at hi
  | cons ln rest ih =>
    intro prev i hi ha hfirst hbad
    cases i with
    | zero =>
      have ha' : anchorCond ln = true := by simpa using ha
      cases prev with
      | none => simp [metaLoop, ha']
      | some pl =>
        have hlt : (pySplitWs pl).length < 2 := hbad pl (by simp [prevAt])
        simp [metaLoop, ha', Nat.not_le.mpr hlt]
    | succ i' =>
      have h0 : anchorCond ln = false := by simpa using hfirst 0 (by omega)
      have hi' : i' < rest.length := by
        simp only [List.length_cons] at hi
        omega
      have ha' : anchorCond (rest.getD i' "") = true := by simpa using ha
      have hf' : ∀ j, j < i' → anchorCond (rest.getD j "") = false :=
        fun j hj => by simpa using hfirst (j + 1) (by omega)
      have hbad' : ∀ pl, prevAt (some ln) rest i' = some pl → (pySplitWs pl).length < 2 := by
        intro pl hpl
        apply hbad pl
        cases i' with
        | zero =>
          simp only [prevAt, if_pos rfl] at hpl
          simpa [prevAt] using hpl
        | succ i'' =>
          simp only [prevAt, Nat.succ_ne_zero, if_false] at hpl ⊢
          simpa using hpl
      simp only [metaLoop, h0, Bool.false_eq_true, if_false]
      exact ih (some ln) i' hi' ha' hf' hbad'

/-- Claim C10: the metadata extractor commits to the first line whose
uppercased form starts with `"PRODUCT NUMBER"` and contains `"CUSTOMER"`;
when that first anchor line has no preceding line or its preceding line has
fewer than two whitespace-separated tokens, both identifiers come back as
empty strings, regardless of any later anchor line. -/
theorem metadata_commits_to_first_anchor (lines : List String) (i : Nat)
    (hi : i < lines.length)
    (ha : anchorCond (lines.getD i "") = true)
    (hfirst : ∀ j, j < i → anchorCond (lines.getD j "") = false)
    (hbad : i = 0 ∨ (pySplitWs (lines.getD (i - 1) "")).length < 2) :
    parseMetadataLines lines = ("", "") := by
  apply metaLoop_first_anchor_bad lines none i hi ha hfirst
  intro pl hpl
  cases i with
  | zero => simp [prevAt] at hpl
  | succ i' =>
    rcases hbad with h0 | hlt
    · exact absurd h0 (by omega)
    · simp only [prevAt, Nat.succ_ne_zero, if_false] at hpl
      have hpl' : lines.getD i' "" = pl := by simpa using hpl
      rw [← hpl']
      simpa using hlt

theorem metadata_commits_to_first_anchor_witness :
    parseMetadataLines
      ["PRODUCT NUMBER X CUSTOMER", "AAA BBB", "PRODUCT NUMBER Y CUSTOMER"] = ("", "") ∧
    anchorCond
      (["PRODUCT NUMBER X CUSTOMER", "AAA BBB", "PRODUCT NUMBER Y CUSTOMER"].getD 2 "") = true ∧
    2 ≤ (pySplitWs
      (["PRODUCT NUMBER X CUSTOMER", "AAA BBB", "PRODUCT NUMBER Y CUSTOMER"].getD 1 "")).length :=
  ⟨metadata_commits_to_first_anchor
      ["PRODUCT NUMBER X CUSTOMER", "AAA BBB", "PRODUCT NUMBER Y CUSTOMER"] 0
      (by decide) (by decide) (fun j hj => absurd hj (by omega)) (Or.inl rfl),
   by decide, by decide⟩

theorem string_data_inj {a b : String} (h : a.data = b.data) : a = b := by
  cases a with
  | mk da =>
    cases b with
    | mk db => exact congrArg String.mk h

theorem makeKey_level1 (e : BomEntry) (vi seq : Nat) (h : e.level = 1) :
    makeKey e vi seq = e.part_number ++ "@@n=" ++ e.note_norm := by
  simp [makeKey, h]

theorem level1_key_ne {e1 e2 : BomEntry} (hpn : e1.part_number = e2.part_number)
    (hnn : e1.note_norm ≠ e2.note_norm) :
    e1.part_number ++ "@@n=" ++ e1.note_norm ≠ e2.part_number ++ "@@n=" ++ e2.note_norm := by
  intro h
  apply hnn
  have h1 : (e1.part_number.data ++ "@@n=".data) ++ e1.note_norm.data
      = (e2.part_number.data ++ "@@n=".data) ++ e2.note_norm.data :=
    congrArg String.data h
  rw [hpn] at h1
  exact string_data_inj (List.append_cancel_left h1)

/-- Claim C2: two variants, each contributing a level-1 entry with the same
part number and canonical part name but different normalized note, yield
two distinct merged parts (the level-1 merge key is part number plus
normalized note), and each merged part's quantity vector is absent in the
slot of the other variant. -/
theorem distinct_notes_make_distinct_parts (e1 e2 : BomEntry)
    (hl1 : e1.level = 1) (hl2 : e2.level = 1)
    (hpn : e1.part_number = e2.part_number)
    (_hname : e1.part_name = e2.part_name)
    (hnn : e1.note_norm ≠ e2.note_norm) :
    makeKey e1 0 0 ≠ makeKey e2 1 1 ∧
    (buildParts [[e1], [e2]]).initial_order = [makeKey e1 0 0, makeKey e2 1 1] ∧
    (∃ p1, lookupA (buildParts [[e1], [e2]]).parts (makeKey e1 0 0) = some p1 ∧
      p1.qtys.getD 1 none = none) ∧
    (∃ p2, lookupA (buildParts [[e1], [e2]]).parts (makeKey e2 1 1) = some p2 ∧
      p2.qtys.getD 0 none = none) := by
  have hne : makeKey e1 0 0 ≠ makeKey e2 1 1 := by
    rw [makeKey_level1 e1 0 0 hl1, makeKey_level1 e2 1 1 hl2]
    exact level1_key_ne hpn hnn
  have hne' : makeKey e2 1 1 ≠ makeKey e1 0 0 := Ne.symm hne
  have hbeq : (makeKey e1 0 0 == makeKey e2 1 1) = false := by
    rw [beq_eq_false_iff_ne]; exact hne
  have hbeq' : (makeKey e2 1 1 == makeKey e1 0 0) = false := by
    rw [beq_eq_false_iff_ne]; exact hne'
  refine ⟨hne, ?_, ?_, ?_⟩ <;>
    rcases hq1 : e1.quantity with _ | q1 <;> rcases hq2 : e2.quantity with _ | q2 <;>
      simp [buildParts, buildPartsAux, applyEntry, lookupA, updateA,
        hq1, hq2, hbeq, hbeq', hne, hne']

theorem distinct_notes_make_distinct_parts_witness :
    makeKey (mkEntry "PN" "a" none) 0 0 ≠ makeKey (mkEntry "PN" "b" none) 1 1 ∧
    (buildParts [[mkEntry "PN" "a" none], [mkEntry "PN" "b" none]]).initial_order.length = 2 := by
  have h := distinct_notes_make_distinct_parts (mkEntry "PN" "a" none) (mkEntry "PN" "b" none)
    rfl rfl rfl rfl (by decide)
  refine ⟨h.1, ?_⟩
  rw [h.2.1]
  rfl

theorem getD_if_zero (S : Rat) :
    (if S = 0 then (none : Option Rat) else some S).getD 0 = S := by
  split
  · simp [*]
  · simp

theorem foldl_same_key_acc (k : String) :
    ∀ (es : List BomEntry),
      (∀ x ∈ es, x.level = 1 ∧ x.part_number ++ "@@n=" ++ x.note_norm = k) →
      ∀ (st : BuildState) (p : PartRec) (S : Rat),
        st.parts = [(k, p)] → p.qtys = [if S = 0 then none else some S] →
        ∃ p', (es.foldl (applyEntry 1 0) st).parts = [(k, p')] ∧
          p'.qtys = [if S + sumQ es = 0 then none else some (S + sumQ es)] := by
  intro es
  induction es with
  | nil =>
    intro _ st p S hst hq
    refine ⟨p, by simpa using hst, ?_⟩
    rw [hq]
    simp [sumQ]
  | cons e rest ih =>
    intro hall st p S hst hq
    obtain ⟨hl, hk⟩ := hall e (by simp)
    have hkey : makeKey e 0 st.seq = k := by rw [makeKey_level1 e 0 st.seq hl]; exact hk
    have hlook : lookupA st.parts (makeKey e 0 st.seq) = some p := by
      rw [hst, hkey]
      simp [lookupA]
    have htail : ∀ x ∈ rest, x.level = 1 ∧ x.part_number ++ "@@n=" ++ x.note_norm = k :=
      fun x hx => hall x (by simp [hx])
    rcases hqe : e.quantity with _ | q
    · have hstep : (applyEntry 1 0 st e).parts = st.parts := by
        simp [applyEntry, hqe, hlook]
      obtain ⟨p', h1, h2⟩ := ih htail (applyEntry 1 0 st e) p S (by rw [hstep, hst]) hq
      refine ⟨p', by simpa using h1, ?_⟩
      rw [h2]
      have hs : sumQ (e :: rest) = sumQ rest := by simp [sumQ, hqe]
      rw [hs]
    · have hlk : lookupA [(k, p)] k = some p := by simp [lookupA]
      have hstep : (applyEntry 1 0 st e).parts
          = [(k, { p with qtys := [if S + q = 0 then none else some (S + q)] })] := by
        simp [applyEntry, hqe, hst, hkey, hlk, updateA, hq, getD_if_zero]
      obtain ⟨p', h1, h2⟩ := ih htail (applyEntry 1 0 st e)
        { p with qtys := [if S + q = 0 then none else some (S + q)] } (S + q)
        (by rw [hstep]) (by simp)
      refine ⟨p', by simpa using h1, ?_⟩
      rw [h2]
      have hs : S + q + sumQ rest = S + sumQ (e :: rest) := by
        simp [sumQ, hqe]
        ring
      rw [hs]

/-- Claim C3: when the same level-1 merge key is sighted several times
within one variant, that variant's slot of the merged quantity vector holds
the sum of the present quantities of the sightings, and an exactly-zero
total is stored as absent. -/
theorem same_key_quantities_accumulate (e : BomEntry) (rest : List BomEntry)
    (hall : ∀ x ∈ e :: rest,
      x.level = 1 ∧ x.part_number = e.part_number ∧ x.note_norm = e.note_norm) :
    ∃ p, lookupA (buildParts [e :: rest]).parts (makeKey e 0 0) = some p ∧
      p.qtys = [if sumQ (e :: rest) = 0 then none else some (sumQ (e :: rest))] := by
  have hl1 : e.level = 1 := (hall e (by simp)).1
  have hkey0 : makeKey e 0 0 = e.part_number ++ "@@n=" ++ e.note_norm :=
    makeKey_level1 e 0 0 hl1
  have hallk : ∀ x ∈ e :: rest,
      x.level = 1 ∧ x.part_number ++ "@@n=" ++ x.note_norm
        = e.part_number ++ "@@n=" ++ e.note_norm := by
    intro x hx
    obtain ⟨h1, h2, h3⟩ := hall x hx
    exact ⟨h1, by rw [h2, h3]⟩
  have hbp : (buildParts [e :: rest]).parts
      = ((e :: rest).foldl (applyEntry 1 0) ⟨[], [], 0⟩).parts := by
    simp [buildParts, buildPartsAux]
  rcases hqe : e.quantity with _ | q
  · have hst1 : (applyEntry 1 0 ⟨[], [], 0⟩ e).parts
        = [(e.part_number ++ "@@n=" ++ e.note_norm, ⟨e, [none]⟩)] := by
      simp [applyEntry, hqe, lookupA, hkey0]
    obtain ⟨p', h1, h2⟩ := foldl_same_key_acc (e.part_number ++ "@@n=" ++ e.note_norm) rest
      (fun x hx => hallk x (by simp [hx])) (applyEntry 1 0 ⟨[], [], 0⟩ e) ⟨e, [none]⟩ 0
      hst1 (by simp)
    refine ⟨p', ?_, ?_⟩
    · rw [hbp, List.foldl_cons, h1, hkey0]
      simp [lookupA]
    · rw [h2]
      have hs : (0 : Rat) + sumQ rest = sumQ (e :: rest) := by simp [sumQ, hqe]
      rw [hs]
  · have hst1 : (applyEntry 1 0 ⟨[], [], 0⟩ e).parts
        = [(e.part_number ++ "@@n=" ++ e.note_norm,
            ⟨e, [if q = 0 then none else some q]⟩)] := by
      simp only [applyEntry, hqe, hkey0]
      simp [lookupA, updateA]
    obtain ⟨p', h1, h2⟩ := foldl_same_key_acc (e.part_number ++ "@@n=" ++ e.note_norm) rest
      (fun x hx => hallk x (by simp [hx])) (applyEntry 1 0 ⟨[], [], 0⟩ e)
      ⟨e, [if q = 0 then none else some q]⟩ q hst1 rfl
    refine ⟨p', ?_, ?_⟩
    · rw [hbp, List.foldl_cons, h1, hkey0]
      simp [lookupA]
    · rw [h2]
      have hs : q + sumQ rest = sumQ (e :: rest) := by simp [sumQ, hqe]
      rw [hs]

theorem same_key_quantities_accumulate_witness :
    ∃ p, lookupA (buildParts [[mkEntry "PN" "" (some 3), mkEntry "PN" "" (some (-3))]]).parts
        (makeKey (mkEntry "PN" "" (some 3)) 0 0) = some p ∧ p.qtys = [none] := by
  obtain ⟨p, h1, h2⟩ := same_key_quantities_accumulate (mkEntry "PN" "" (some 3))
    [mkEntry "PN" "" (some (-3))]
    (by
      intro x hx
      rcases List.mem_cons.mp hx with h | h
      · subst h; exact ⟨rfl, rfl, rfl⟩
      · have h' := List.mem_singleton.mp h
        subst h'; exact ⟨rfl, rfl, rfl⟩)
  refine ⟨p, h1, ?_⟩
  rw [h2]
  norm_num [sumQ, mkEntry]

theorem lookupA_mem :
    ∀ (ps : List (String × PartRec)) (k : String) (p : PartRec),
      lookupA ps k = some p → ∃ k', (k', p) ∈ ps := by
  intro ps
  induction ps with
  | nil => intro k p h; simp [lookupA] at h
  | cons kp rest ih =>
    intro k p h
    rcases kp with ⟨k0, p0⟩
    by_cases hk : (k0 == k) = true
    · simp only [lookupA, hk, if_pos] at h
      exact ⟨k0, by simp [← Option.some_inj.mp h]⟩
    · simp only [lookupA, hk, if_neg] at h
      obtain ⟨k', hk'⟩ := ih k p (by simpa using h)
      exact ⟨k', by simp [hk']⟩

/-- Claim C9: sighting an entry whose quantity is absent leaves every
stored quantity vector unchanged (a repeat sighting leaves the parts map
untouched entirely); consequently, when every sighting in every variant
carries an absent quantity, every merged part's vector is absent in every
slot, never coerced to zero. -/
theorem absent_quantity_leaves_vector_unchanged :
    (∀ (n vi : Nat) (st : BuildState) (r : BomEntry), r.quantity = none →
        (lookupA st.parts (makeKey r vi st.seq)).isSome = true →
        (applyEntry n vi st r).parts = st.parts) ∧
    (∀ (sheets : List (List BomEntry)),
        (∀ es ∈ sheets, ∀ x ∈ es, x.quantity = none) →
        ∀ (k : String) (p : PartRec), lookupA (buildParts sheets).parts k = some p →
          p.qtys = List.replicate sheets.length none) := by
  constructor
  · intro n vi st r hq hsome
    simp [applyEntry, hq, hsome]
  · intro sheets hall k p hlook
    suffices h : ∀ kp ∈ (buildParts sheets).parts,
        (kp : String × PartRec).2.qtys = List.replicate sheets.length none by
      obtain ⟨k', hk'⟩ := lookupA_mem _ _ _ hlook
      exact h (k', p) hk'
    have step : ∀ (vi : Nat) (r : BomEntry) (st : BuildState), r.quantity = none →
        (∀ kp ∈ st.parts, (kp : String × PartRec).2.qtys = List.replicate sheets.length none) →
        ∀ kp ∈ (applyEntry sheets.length vi st r).parts,
          (kp : String × PartRec).2.qtys = List.replicate sheets.length none := by
      intro vi r st hq hinv kp hkp
      simp only [applyEntry, hq] at hkp
      by_cases hs : (lookupA st.parts (makeKey r vi st.seq)).isSome = true
      · rw [if_pos hs] at hkp
        exact hinv kp hkp
      · rw [if_neg hs] at hkp
        rcases List.mem_append.mp hkp with h1 | h2
        · exact hinv kp h1
        · have h3 := List.mem_singleton.mp h2
          subst h3
          rfl
    have inner : ∀ (es : List BomEntry) (vi : Nat) (st : BuildState),
        (∀ x ∈ es, x.quantity = none) →
        (∀ kp ∈ st.parts, (kp : String × PartRec).2.qtys = List.replicate sheets.length none) →
        ∀ kp ∈ (es.foldl (applyEntry sheets.length vi) st).parts,
          (kp : String × PartRec).2.qtys = List.replicate sheets.length none := by
      intro es
      induction es with
      | nil => intro vi st _ hinv; exact hinv
      | cons e es2 ih =>
        intro vi st hq hinv
        rw [List.foldl_cons]
        exact ih vi (applyEntry sheets.length vi st e)
          (fun x hx => hq x (by simp [hx]))
          (step vi e st (hq e (by simp)) hinv)
    have outer : ∀ (shs : List (List BomEntry)) (vi : Nat) (st : BuildState),
        (∀ es ∈ shs, ∀ x ∈ es, x.quantity = none) →
        (∀ kp ∈ st.parts, (kp : String × PartRec).2.qtys = List.replicate sheets.length none) →
        ∀ kp ∈ (buildPartsAux sheets.length vi st shs).parts,
          (kp : String × PartRec).2.qtys = List.replicate sheets.length none := by
      intro shs
      induction shs with
      | nil => intro vi st _ hinv; exact hinv
      | cons es shs2 ih =>
        intro vi st hq hinv
        exact ih (vi + 1) _ (fun es2 hes2 => hq es2 (by simp [hes2]))
          (inner es vi st (hq es (by simp)) hinv)
    exact outer sheets 0 ⟨[], [], 0⟩ hall (by simp)

theorem absent_quantity_leaves_vector_unchanged_witness :
    ∃ p, lookupA (buildParts [[mkEntry "PN" "" none]]).parts
        (makeKey (mkEntry "PN" "" none) 0 0) = some p ∧ p.qtys = [none] := by
  have hcomp : lookupA (buildParts [[mkEntry "PN" "" none]]).parts
      (makeKey (mkEntry "PN" "" none) 0 0)
      = some ⟨mkEntry "PN" "" none, [none]⟩ := by decide
  have h2 := absent_quantity_leaves_vector_unchanged.2 [[mkEntry "PN" "" none]]
    (by
      intro es hes x hx
      have h1 := List.mem_singleton.mp hes
      subst h1
      have h3 := List.mem_singleton.mp hx
      subst h3
      rfl)
    (makeKey (mkEntry "PN" "" none) 0 0) ⟨mkEntry "PN" "" none, [none]⟩ hcomp
  exact ⟨⟨mkEntry "PN" "" none, [none]⟩, hcomp, by simpa using h2⟩

end Yazaki

-- Concrete evaluations validating the embedding against the sources.
example : Yazaki.parseQuantity "2" = some 2 := by decide
example : Yazaki.parseQuantity "" = none := by decide
example : Yazaki.parseQuantity "N/A" = none := by decide
example : (Yazaki.pyParseFloat "2.5").isSome = true := by decide
example : (Yazaki.pyParseFloat "1e3").isSome = true := by decide
example : (Yazaki.pyParseFloat "N/A").isSome = false := by decide
example : Yazaki.parseQuantity "-3" = some (-3 : Rat) := by decide
example : Yazaki.revisionOf "Rev 3 (was 2)" = "2" := by decide
example : Yazaki.revisionOf "abc" = "0" := by decide
example : Yazaki.parseIndexInt "68.1" = some 68 := by decide
example : Yazaki.matchesItemIdx "68.1" = true := by decide
example : Yazaki.matchesItemIdx "1.2.3" = false := by decide
example : Yazaki.matchesItemIdx "" = false := by decide
example : Yazaki.cleanCell (some "  a\nb ") = "a b" := by decide
example : Yazaki.pySplitWs "P123  C456 " = ["P123", "C456"] := by decide
example : Yazaki.isTrivialNote "In  Preparation" = true := by decide
example : Yazaki.isTrivialNote "欠図 in preparation" = true := by decide
example : Yazaki.isTrivialNote "欠図" = true := by decide
example : Yazaki.isTrivialNote "in preparations" = false := by decide
example : Yazaki.isTrivialNote "" = false := by decide
example : Yazaki.normalizeNote " Heat ;  Shield -" = "heat ; shield" := by decide
example : Yazaki.normalizeNote "in preparation" = "" := by decide
example : Yazaki.partNameOf 3 ["部品名", "AS", "SY BRACKET"] = ("SY Bracket", false) := by decide
example : Yazaki.partNameOf 4 ["部品名", "AS", "SY BRACKET"] = ("SY Bracket", false) := by decide
example : Yazaki.partNameOf 3 ["ASSY", "AS", "SY BRACKET"] = ("SY Bracket", false) := by decide
example : Yazaki.flattenLines ["AS", "SY"] = "ASSY" := by decide
example : Yazaki.partNameOf 3 ["x", "ASSY BRACKET 2B"] = ("Assy Bracket 2B", false) := by decide
example : Yazaki.partNameOf 3 ["only line"] = ("Only Line", false) := by decide
example : Yazaki.hdrIdx [[some "Level", some "Part Number P/N"]] = 0 := by decide
example : Yazaki.hdrIdx [[some "my part number", some "level x"]] = 2 := by decide
example : Yazaki.specHdrIdx [[some "my part number", some "level x"]] = 0 := by decide
example : Yazaki.levelOf [some "1", none, some "x"] = 2 := by decide
example : Yazaki.levelOf [some "1"] = 1 := by decide
example :
    Yazaki.processRow [] ⟨6, 1, some 2, none, none⟩
      [some "3", some "LAMP ASSY", some "2", none, none, none, some "PN-1"] =
    some { level := 1, part_name := "Lamp Assy", display_name := "Lamp Assy", note := "",
           note_norm := "", part_number := "PN-1", drawing_no := "PN-1", change := "0",
           quantity := some 2, flag_multiline_en := false, flag_note_used := false } := by decide
example : Yazaki.processRow [3] ⟨6, 1, some 2, none, none⟩
      [some "3", some "LAMP ASSY", some "2", none, none, none, some "PN-1"] = none := by decide
example : Yazaki.parseMetadataLines ["x", "AAA BBB", "PRODUCT NUMBER / CUSTOMER"] = ("BBB", "AAA") := by decide
example : Yazaki.parseMetadataLines ["PRODUCT NUMBER / CUSTOMER", "AAA BBB", "PRODUCT NUMBER / CUSTOMER"] = ("", "") := by decide
